import Mathlib

/-!
Verification of the career counselling system.

This file gives a shallow embedding of the core evaluation pipeline
(questionnaire validation, trait aggregation, career-path ranking,
recommendation assembly, reflection prompts and narrative rendering) and
proves the specified properties of the pipeline over it.

Modelling conventions:
* Python dictionaries become insertion-ordered association lists
  (`List (String × _)`); lookups take the first matching key, assignment
  updates the first matching key in place and appends new keys, which is
  exactly CPython dict behaviour.
* Floats become exact rationals (`Rat`); every weight in the catalogs is
  an exact decimal.
* A Python function that can raise returns `Option`/`Except`; the `none`
  or `.error` value models the raised exception.
-/

namespace CareerCounselling

/- The Batteries rational operations are sealed; reopening them lets
`decide` evaluate concrete `Rat` arithmetic (the kernel unfolds them
regardless). -/
attribute [local semireducible] Rat.add Rat.mul Rat.ofScientific Rat.sub Rat.inv

/-- Association-list lookup modelling Python dict access: returns the
value bound to the first occurrence of the key, `none` if absent. -/
def alookup {α : Type} : List (String × α) → String → Option α
  | [], _ => none
  | (k, v) :: rest, key => if k = key then some v else alookup rest key

/-- Lookup with default `0`, modelling `dict.get(key, 0.0)`. -/
def lookupD (m : List (String × Rat)) (t : String) : Rat :=
  (alookup m t).getD 0

/-- Keys of an association list, in insertion order. -/
def keys {α : Type} (m : List (String × α)) : List String :=
  m.map Prod.fst

/-- The `Option` dataclass of `questionnaire.py` (renamed: `Option` is the
Lean option type). The `weight` dict is an insertion-ordered association
list of exact rational weights. -/
structure QOption where
  id : String
  label : String
  weight : List (String × Rat)
deriving DecidableEq, Repr

/-- The `Question` dataclass of `questionnaire.py`. -/
structure Question where
  id : String
  prompt : String
  options : List QOption
deriving DecidableEq, Repr

/-- The `_build_questions` catalog of `questionnaire.py`, transcribed
verbatim (weights as exact rationals). -/
def build_questions : List Question :=
  [ { id := "strength"
    , prompt := "Which statement best describes your current strengths?"
    , options :=
      [ { id := "analytical"
        , label := "I enjoy solving complex problems and working with data."
        , weight := [("analytical", 1), ("technical", 0.5)] }
      , { id := "creative"
        , label := "I like creating content, telling stories, or designing experiences."
        , weight := [("creative", 1), ("communication", 0.5)] }
      , { id := "supportive"
        , label := "I thrive when helping others grow and collaborating on teams."
        , weight := [("social", 1), ("communication", 0.5)] }
      , { id := "practical"
        , label := "I prefer hands-on work where I can see tangible results quickly."
        , weight := [("practical", 1), ("technical", 0.5)] } ] }
  , { id := "values"
    , prompt := "What motivates you most in a future career?"
    , options :=
      [ { id := "impact"
        , label := "Making a positive impact on society and individuals."
        , weight := [("social", 0.8), ("creative", 0.4)] }
      , { id := "innovation"
        , label := "Inventing new solutions or working with cutting-edge technology."
        , weight := [("technical", 0.8), ("analytical", 0.6)] }
      , { id := "security"
        , label := "Having stability, clear expectations, and predictable routines."
        , weight := [("practical", 0.9)] }
      , { id := "expression"
        , label := "Having the freedom to express myself and explore ideas."
        , weight := [("creative", 0.8), ("communication", 0.4)] } ] }
  , { id := "environment"
    , prompt := "What environment do you picture yourself thriving in?"
    , options :=
      [ { id := "team"
        , label := "Collaborating in cross-functional teams with lots of communication."
        , weight := [("social", 0.9), ("communication", 0.7)] }
      , { id := "independent"
        , label := "Working independently where I can focus deeply for long periods."
        , weight := [("analytical", 0.7), ("technical", 0.6)] }
      , { id := "dynamic"
        , label := "Fast-paced spaces where priorities can change often."
        , weight := [("technical", 0.5), ("practical", 0.6)] }
      , { id := "studio"
        , label := "Creative studios or workshops where I build and experiment."
        , weight := [("creative", 0.7), ("practical", 0.6)] } ] }
  , { id := "learning"
    , prompt := "How do you prefer to learn new skills?"
    , options :=
      [ { id := "courses"
        , label := "Structured courses with clear milestones and feedback."
        , weight := [("analytical", 0.6), ("practical", 0.4)] }
      , { id := "projects"
        , label := "Working on personal projects that let me explore on my own."
        , weight := [("creative", 0.5), ("technical", 0.6)] }
      , { id := "people"
        , label := "Learning through conversations, mentorship, or coaching others."
        , weight := [("social", 0.7), ("communication", 0.6)] }
      , { id := "hands-on"
        , label := "Trying things out physically and iterating quickly."
        , weight := [("practical", 0.7), ("technical", 0.4)] } ] } ]

/-- The ids of the questions in catalog order (`Questionnaire.question_ids`). -/
def question_ids : List String := build_questions.map Question.id

/-- Joins a list of strings with a separator, modelling `sep.join(xs)`. -/
def join_with (sep : String) : List String → String
  | [] => ""
  | s :: rest =>
    match rest with
    | [] => s
    | _ :: _ => s ++ sep ++ join_with sep rest

/-- Second phase of `Questionnaire.validate`: the catalog-order loop that
checks each answered option id against the option-id set of its question.
`responses[question.id]` raising `KeyError` (unreachable after the missing
check) is modelled by the error branch on a failed lookup. -/
def check_options : List Question → List (String × String) → Except String Unit
  | [], _ => .ok ()
  | q :: qs, rs =>
    match alookup rs q.id with
    | none => .error ("KeyError: \x27" ++ q.id ++ "\x27")
    | some oid =>
      if oid ∈ q.options.map QOption.id then check_options qs rs
      else .error ("Invalid option \x27" ++ oid ++ "\x27 for question \x27" ++ q.id ++ "\x27.")

/-- The `Questionnaire.validate` method: collects every unanswered question
id into one `Missing responses` diagnostic, otherwise scans questions in
catalog order and fails on the first invalid option id. A raised
`ValueError` is modelled as `.error` carrying the exception message. -/
def validate (responses : List (String × String)) : Except String Unit :=
  let missing := question_ids.filter (fun qid => (alookup responses qid).isNone)
  if missing.isEmpty then check_options build_questions responses
  else .error ("Missing responses for: " ++ join_with ", " missing)

/-- The dict update `scores[trait] = scores.get(trait, 0.0) + weight`:
adds to the first occurrence of the key, appends the key if absent. -/
def upsert : List (String × Rat) → String → Rat → List (String × Rat)
  | [], t, w => [(t, w)]
  | (k, v) :: rest, t, w =>
    if k = t then (k, v + w) :: rest else (k, v) :: upsert rest t w

/-- The inner loop of `_aggregate_traits`: folds the weight vector of one
option into the running score mapping. -/
def apply_weights (sc : List (String × Rat)) (w : List (String × Rat)) : List (String × Rat) :=
  w.foldl (fun s tw => upsert s tw.1 tw.2) sc

/-- The `_option_by_id` helper of `engine.py`: first option with the given
id, `none` modelling the raised `ValueError`. -/
def option_by_id (options : List QOption) (oid : String) : Option QOption :=
  options.find? (fun o => o.id == oid)

/-- The body of `_aggregate_traits`, recursing over the question list;
a failed response lookup (`KeyError`) or option resolution (`ValueError`)
is modelled by `none`. -/
def agg_go : List Question → List (String × String) → List (String × Rat) →
    Option (List (String × Rat))
  | [], _, sc => some sc
  | q :: qs, rs, sc =>
    match alookup rs q.id with
    | none => none
    | some oid =>
      match option_by_id q.options oid with
      | none => none
      | some o => agg_go qs rs (apply_weights sc o.weight)

/-- The `_aggregate_traits` method generalized over the iteration order of
the questions (the source iterates `self.questionnaire.questions()`,
i.e. `build_questions`). -/
def aggregate_traits_with (qs : List Question) (rs : List (String × String)) :
    Option (List (String × Rat)) :=
  agg_go qs rs []

/-- The `CareerCounsellor._aggregate_traits` method. -/
def aggregate_traits (rs : List (String × String)) : Option (List (String × Rat)) :=
  aggregate_traits_with build_questions rs

/-- The `CareerPath` dataclass of `engine.py`. -/
structure CareerPath where
  title : String
  traits : List (String × Rat)
  description : String
  strengths_alignment : List String
  starter_projects : List String
  learning_resources : List String
deriving DecidableEq, Repr

/-- The `CareerPath.match_score` method: sum over the trait-weight entries of the path itself of `trait_scores.get(trait, 0.0) * weight`. -/
def match_score (p : CareerPath) (trait_scores : List (String × Rat)) : Rat :=
  (p.traits.map (fun tw => lookupD trait_scores tw.1 * tw.2)).sum

/-- The `_build_career_library` catalog of `engine.py`, transcribed
verbatim. -/
def build_career_library : List CareerPath :=
  [ { title := "Data & AI Explorer"
    , traits := [("analytical", 0.8), ("technical", 0.7)]
    , description := "You enjoy uncovering patterns and using technology to make sense of complex problems. Roles like data analyst, machine learning engineer, or AI ethicist can let you blend curiosity with impact."
    , strengths_alignment :=
      [ "You naturally spot trends and question the status quo."
      , "You enjoy independent deep work and thoughtful experimentation."
      , "You like transforming messy information into useful insights." ]
    , starter_projects :=
      [ "Analyze open datasets (climate, education) and publish a short insight report."
      , "Build a simple machine learning model that solves a real-world student problem."
      , "Join a hackathon focused on ethical AI or social good." ]
    , learning_resources :=
      [ "Intro to Data Science with Python (Coursera)"
      , "Kaggle Learn: Intro to Machine Learning"
      , "AI Ethics case studies from the Montreal AI Ethics Institute" ] }
  , { title := "Digital Storyteller"
    , traits := [("creative", 0.9), ("communication", 0.7)]
    , description := "You bring ideas to life through words, visuals, or interactive media. Careers in content strategy, UX writing, or multimedia journalism help you build narratives that inspire action."
    , strengths_alignment :=
      [ "You connect with audiences and translate complex topics into engaging stories."
      , "You experiment with formats—from podcasts to design mockups—to find the right voice."
      , "You notice the emotions behind people\x27s experiences and reflect them back." ]
    , starter_projects :=
      [ "Launch a storytelling newsletter exploring student journeys in various fields."
      , "Prototype a multimedia portfolio site highlighting causes you care about."
      , "Volunteer with a local nonprofit to amplify their mission through social media." ]
    , learning_resources :=
      [ "Google UX Writing Fundamentals"
      , "Storytelling for Influence (IDEO U)"
      , "Build a Personal Brand on Social Media (LinkedIn Learning)" ] }
  , { title := "Community Impact Navigator"
    , traits := [("social", 0.8), ("communication", 0.6)]
    , description := "You thrive when empowering others and building supportive spaces. Roles in community management, education, or talent development let you guide people toward growth."
    , strengths_alignment :=
      [ "You facilitate discussions that help peers discover their strengths."
      , "You design inclusive experiences where everyone feels seen."
      , "You excel at translating feedback into programs that drive impact." ]
    , starter_projects :=
      [ "Start a peer mentoring circle focused on goal setting and accountability."
      , "Design a workshop to help classmates explore future career paths."
      , "Coordinate a service project that addresses a local need." ]
    , learning_resources :=
      [ "Coaching Skills for Leaders (edX)"
      , "Community Management Fundamentals (CMX)"
      , "Designing Learning Experiences (IDEO U)" ] }
  , { title := "Product Innovator"
    , traits := [("technical", 0.7), ("practical", 0.6)]
    , description := "You enjoy turning ideas into tangible solutions and iterating quickly. Product management, innovation strategy, or entrepreneurship paths help you launch meaningful products."
    , strengths_alignment :=
      [ "You balance big-picture vision with pragmatic experimentation."
      , "You love mapping user needs and crafting solutions that evolve with feedback."
      , "You are energized by dynamic environments and collaborative building." ]
    , starter_projects :=
      [ "Design a lean canvas for a product addressing a student life challenge."
      , "Join a product sprint or startup weekend to practice rapid prototyping."
      , "Build a low-code MVP and test it with potential users." ]
    , learning_resources :=
      [ "Product Strategy by Reforge"
      , "Lean Startup principles (Eric Ries)"
      , "Figma Community for prototyping inspiration" ] }
  , { title := "Sustainable Builder"
    , traits := [("practical", 0.8), ("creative", 0.5)]
    , description := "You like working with your hands and seeing real-world change. Careers in sustainable engineering, urban planning, or environmental design combine tangible impact with creativity."
    , strengths_alignment :=
      [ "You think in systems and care about long-term impact on people and planet."
      , "You enjoy learning by doing and iterating on physical or spatial prototypes."
      , "You balance functionality with aesthetics when solving problems." ]
    , starter_projects :=
      [ "Prototype a sustainable product or service for your campus."
      , "Volunteer with an urban garden or green building initiative."
      , "Document how local infrastructure could become more climate resilient." ]
    , learning_resources :=
      [ "Introduction to Sustainable Design (Coursera)"
      , "Open Source Ecology projects"
      , "Sustainable Cities MOOC (edX)" ] } ]

/-- The `_rank_paths` method: `sorted(library, key=match_score, reverse=True)`.
CPython `sorted` with `reverse=True` is a stable descending sort, which is
exactly `List.insertionSort` under the reflexive relation
"left score is at least right score". -/
def rank_paths (traits : List (String × Rat)) : List CareerPath :=
  List.insertionSort (fun p q => match_score q traits ≤ match_score p traits)
    build_career_library

/-- The `Recommendation` dataclass of `engine.py`. -/
structure Recommendation where
  title : String
  summary : String
  strengths_alignment : List String
  starter_projects : List String
  learning_resources : List String
deriving DecidableEq, Repr

/-- The `_create_recommendation` method: verbatim projection of a path. -/
def create_recommendation (p : CareerPath) : Recommendation :=
  { title := p.title
  , summary := p.description
  , strengths_alignment := p.strengths_alignment
  , starter_projects := p.starter_projects
  , learning_resources := p.learning_resources }

/-- The `TraitProfile` dataclass of `engine.py`. -/
structure TraitProfile where
  scores : List (String × Rat)
deriving DecidableEq, Repr

/-- The `TraitProfile.top_traits` method: scores sorted descending by value
(stable), truncated to `limit`. -/
def top_traits (tp : TraitProfile) (limit : Nat) : List (String × Rat) :=
  (List.insertionSort (fun a b : String × Rat => b.2 ≤ a.2) tp.scores).take limit

/-- Digit character for `n % 10`. -/
def digit_char (n : Nat) : Char := Char.ofNat (48 + n % 10)

/-- Fuelled base-10 digit expansion (fuel `n` always suffices). -/
def nat_digits_aux : Nat → Nat → List Char
  | 0, n => [digit_char n]
  | fuel + 1, n =>
    if n < 10 then [digit_char n]
    else nat_digits_aux fuel (n / 10) ++ [digit_char (n % 10)]

/-- Decimal digits of a natural number. -/
def nat_digits (n : Nat) : List Char := nat_digits_aux n n

/-- Decimal rendering of a natural number (Python `str(n)` for `n ≥ 0`). -/
def nat_str (n : Nat) : String := ⟨nat_digits n⟩

/-- Models the Python format `f"{x:.1f}"` for the nonnegative exact-tenth
scores this program produces (every aggregated score is a nonnegative
multiple of 1/10, for which `:.1f` prints the value exactly). -/
def fmt1 (q : Rat) : String :=
  let n : Nat := (q * 10).floor.toNat
  nat_str (n / 10) ++ "." ++ nat_str (n % 10)

/-- Python `max(items, key=value)` over dict items: the first pair with the
maximal value (`max` keeps the current item on ties), `none` modelling the
`ValueError` raised on an empty sequence. -/
def max_by_value : List (String × Rat) → Option (String × Rat)
  | [] => none
  | p :: rest =>
    match max_by_value rest with
    | none => some p
    | some q => some (if p.2 < q.2 then q else p)

/-- The `_compose_headline` method. `max(traits.items(), ...)` over an
empty mapping raises `ValueError` (modelled by `none`); there is no guard
and no fallback headline in the source. -/
def compose_headline (learner_name : String) (traits : List (String × Rat))
    (recommendations : List Recommendation) : Option String :=
  match max_by_value traits with
  | none => none
  | some (top_trait, top_score) =>
    let lead := match recommendations with
      | [] => "new paths"
      | r :: _ => r.title
    some (learner_name ++ ", your top trait is " ++ top_trait ++ " (" ++ fmt1 top_score ++
      ") and you\x27re well suited for " ++ lead ++ ".")

/-- The `_reflection_prompts` helper of `engine.py`. -/
def reflection_prompts (recommendations : List Recommendation) : List String :=
  let prompts :=
    [ "What parts of the recommended roles excite you the most and why?"
    , "How do these paths align with the impact you want to have on others?"
    , "What is one experiment you could run this month to learn more?" ]
  match recommendations with
  | [] => prompts
  | r :: _ =>
    prompts ++ ["Who could you reach out to for an informational chat about " ++ r.title ++ "?"]

/-- The `Evaluation` dataclass of `engine.py`. -/
structure Evaluation where
  learner_name : String
  headline : String
  traits : TraitProfile
  recommendations : List Recommendation
  reflection_questions : List String
deriving DecidableEq, Repr

/-- The `CareerCounsellor.evaluate` method; any exception raised along the
pipeline (validation error, aggregation lookup error, empty-max error)
surfaces as `none`. -/
def evaluate (learner_name : String) (responses : List (String × String)) :
    Option Evaluation :=
  match validate responses with
  | .error _ => none
  | .ok _ =>
    match aggregate_traits responses with
    | none => none
    | some traits =>
      let ranked := rank_paths traits
      let recommendations := (ranked.take 3).map create_recommendation
      match compose_headline learner_name traits recommendations with
      | none => none
      | some headline =>
        some { learner_name := learner_name
             , headline := headline
             , traits := { scores := traits }
             , recommendations := recommendations
             , reflection_questions := reflection_prompts recommendations }

/-- Space or tab, the characters `textwrap.dedent` treats as margin. -/
def is_ws (c : Char) : Bool := c == ' ' || c == '\t'

/-- The ASCII whitespace stripped by Python `str.strip()`. -/
def is_pyspace (c : Char) : Bool :=
  c == ' ' || c == '\t' || c == '\n' || c == '\r' || c == '\x0b' || c == '\x0c'

/-- Splits on newline characters, producing `n + 1` parts for `n` newlines
(Python `text.split(chr(10))`). -/
def split_nl : List Char → List (List Char)
  | [] => [[]]
  | c :: rest =>
    if c = '\n' then [] :: split_nl rest
    else
      match split_nl rest with
      | [] => [[c]]
      | h :: t => (c :: h) :: t

/-- Joins lines with a newline character, the inverse of `split_nl`. -/
def join_nl : List (List Char) → List Char
  | [] => []
  | l :: rest =>
    match rest with
    | [] => l
    | _ :: _ => l ++ '\n' :: join_nl rest

/-- Leading space-and-tab run of a line. -/
def take_ws (l : List Char) : List Char := l.takeWhile is_ws

/-- A line consisting solely of (one or more) spaces and tabs, which
`textwrap.dedent` normalizes to an empty line. -/
def is_blank (l : List Char) : Bool := !l.isEmpty && l.all is_ws

/-- Longest common prefix of two character lists. -/
def lcp : List Char → List Char → List Char
  | [], _ => []
  | a :: as, b =>
    match b with
    | [] => []
    | c :: bs => if a = c then a :: lcp as bs else []

/-- Longest common prefix of a family of lines (the dedent margin). -/
def lcp_list : List (List Char) → List Char
  | [] => []
  | x :: rest =>
    match rest with
    | [] => x
    | _ :: _ => lcp x (lcp_list rest)

/-- Boolean prefix test on character lists. -/
def starts_with : List Char → List Char → Bool
  | [], _ => true
  | _ :: _, [] => false
  | c :: p, d :: s => c == d && starts_with p s

/-- Python `textwrap.dedent`: whitespace-only lines are emptied, the
longest common leading space/tab margin of the remaining lines is
computed, and that margin is removed from the start of every line. -/
def dedent_chars (s : List Char) : List Char :=
  let lines := (split_nl s).map (fun l => if is_blank l then [] else l)
  let indents := (lines.filter (fun l => !l.isEmpty)).map take_ws
  let margin := lcp_list indents
  join_nl (lines.map (fun l => if starts_with margin l then l.drop margin.length else l))

/-- Python `str.strip()`: removes leading and trailing whitespace. -/
def strip_chars (s : List Char) : List Char :=
  ((s.dropWhile is_pyspace).reverse.dropWhile is_pyspace).reverse

/-- String-level wrapper for `dedent_chars`. -/
def dedent (s : String) : String := ⟨dedent_chars s.data⟩

/-- String-level wrapper for `strip_chars`. -/
def strip (s : String) : String := ⟨strip_chars s.data⟩

/-- One bulleted block: `"\n".join(f"    • {item}" for item in items)`. -/
def bullets (items : List String) : String :=
  join_with "\n" (items.map (fun i => "    • " ++ i))

/-- The `_describe_recommendation` helper of `genai.py`. -/
def describe_recommendation (position : Nat) (r : Recommendation) : String :=
  strip (dedent ("\n        Option " ++ nat_str position ++ ": " ++ r.title ++
    "\n        Why it fits:\n        " ++ bullets r.strengths_alignment ++
    "\n        Try this next:\n        " ++ bullets r.starter_projects ++
    "\n        Keep exploring with:\n        " ++ bullets r.learning_resources ++
    "\n        "))

/-- The numbered recommendation sections (`enumerate` starting the
positions at `i + 1`). -/
def enum_describe : Nat → List Recommendation → List String
  | _, [] => []
  | i, r :: rest => describe_recommendation (i + 1) r :: enum_describe (i + 1) rest

/-- The greeting block of `compose_full_report`. -/
def compose_intro (ev : Evaluation) : String :=
  strip (dedent ("\n        Hey " ++ ev.learner_name ++
    ",\n        Here\x27s a quick look at how your strengths and motivations can shape your next steps.\n        " ++
    ev.headline ++ "\n        "))

/-- The single trait line of `compose_full_report`. -/
def trait_line (ev : Evaluation) : String :=
  "Top strengths: " ++ join_with ", " ((top_traits ev.traits 3).map
    (fun p => p.1 ++ " (" ++ fmt1 p.2 ++ ")"))

/-- The reflection block of `compose_full_report`. -/
def reflection_section (ev : Evaluation) : String :=
  "Reflection prompts:\n- " ++ join_with "\n- " ev.reflection_questions

/-- The `compose_full_report` function of `genai.py`: intro, trait line,
one section per recommendation and the reflection block, joined by blank
lines. -/
def compose_full_report (ev : Evaluation) : String :=
  join_with "\n\n" ([compose_intro ev, trait_line ev] ++
    enum_describe 0 ev.recommendations ++ [reflection_section ev])

/-- Boolean characterisation of a valid response set: every catalog
question is answered with one of its own option ids (the precondition the
spec places on `aggregate`, and the condition under which `validate`
must succeed). -/
def valid_responses (rs : List (String × String)) : Bool :=
  build_questions.all (fun q =>
    match alookup rs q.id with
    | some oid => decide (oid ∈ q.options.map QOption.id)
    | none => false)

/-- Total weight a weight vector assigns to a trait (sum of the entries
carrying that trait; the vectors in the catalog mention each trait at most
once). -/
def wsum : List (String × Rat) → String → Rat
  | [], _ => 0
  | (k, v) :: rest, t => (if k = t then v else 0) + wsum rest t

/-- The option a response set selects for a question (response lookup
followed by option resolution). -/
def selected_option (rs : List (String × String)) (q : Question) : Option QOption :=
  (alookup rs q.id).bind (fun oid => option_by_id q.options oid)

/-- Modelled from the spec: the contribution of one question to a trait
score — the weight its selected option assigns to the trait, `0` for a
trait the option does not mention. -/
def spec_question_contrib (rs : List (String × String)) (t : String) (q : Question) : Rat :=
  match selected_option rs q with
  | some o => wsum o.weight t
  | none => 0

/-- Modelled from the spec: the score of a trait as the sum, over
questions in catalog order, of the weight each selected option gives it. -/
def spec_trait_sum (rs : List (String × String)) (t : String) : Rat :=
  (build_questions.map (spec_question_contrib rs t)).sum

/-- Modelled from the spec: the first question, in catalog order, whose
answer names an option id outside the option set of its question, together with
that answer. -/
def spec_first_invalid_in : List Question → List (String × String) → Option (String × String)
  | [], _ => none
  | q :: qs, rs =>
    match alookup rs q.id with
    | none => spec_first_invalid_in qs rs
    | some oid =>
      if oid ∈ q.options.map QOption.id then spec_first_invalid_in qs rs
      else some (q.id, oid)

/-- Modelled from the spec: first invalid answer over the full catalog. -/
def spec_first_invalid (rs : List (String × String)) : Option (String × String) :=
  spec_first_invalid_in build_questions rs

/-- The diagnostic message `validate` raises for an invalid option. -/
def invalid_option_msg (qid oid : String) : String :=
  "Invalid option \x27" ++ oid ++ "\x27 for question \x27" ++ qid ++ "\x27."

/-- The diagnostic message `validate` raises for missing responses. -/
def missing_msg (ids : List String) : String :=
  "Missing responses for: " ++ join_with ", " ids

/-- Substring occurrence test (used to settle "the message contains the
id" claims by computation). -/
def sub_occurs (p : List Char) : List Char → Bool
  | [] => starts_with p []
  | c :: rest => starts_with p (c :: rest) || sub_occurs p rest

/-- A run of report sections numbered consecutively from `k`: the `i`-th
section begins with the header `Option (k + i):`. -/
def numbered_from : Nat → List String → Prop
  | _, [] => True
  | k, s :: rest =>
    starts_with ("Option " ++ nat_str k ++ ":").data s.data = true ∧ numbered_from (k + 1) rest

/-- The end-to-end scenario response set fixed by the spec. -/
def scenario_responses : List (String × String) :=
  [("strength", "analytical"), ("values", "innovation"),
   ("environment", "independent"), ("learning", "courses")]

/-- The trait scores the scenario response set aggregates to. -/
def scenario_scores : List (String × Rat) :=
  [("analytical", 2.9), ("technical", 1.9), ("practical", 0.4)]

/-- The invalid-option scenario fixed by the spec: `strength` answered
with the unknown option id `nope`, the rest valid. -/
def invalid_scenario_responses : List (String × String) :=
  [("strength", "nope"), ("values", "innovation"),
   ("environment", "independent"), ("learning", "courses")]

/-- First catalog career path (used to witness ranking facts). -/
def catalog0 : CareerPath := build_career_library.getD 0 ⟨"", [], "", [], [], []⟩

/-- Second catalog career path (used to witness ranking facts). -/
def catalog1 : CareerPath := build_career_library.getD 1 ⟨"", [], "", [], [], []⟩

/-- A learner name containing a newline followed by the template margin,
used to probe the dedent-based renderer. -/
def margin_breaking_name : String := "A\n        B"

/-! ### Helper lemmas -/

theorem max_by_value_isSome (l : List (String × Rat)) :
    (max_by_value l).isSome = true ↔ l ≠ [] := by
  cases l with
  | nil => simp [max_by_value]
  | cons p rest => cases h : max_by_value rest <;> simp [max_by_value, h]

theorem compose_headline_isSome_iff (learner_name : String) (traits : List (String × Rat))
    (recommendations : List Recommendation) :
    (compose_headline learner_name traits recommendations).isSome = true ↔ traits ≠ [] := by
  rw [← max_by_value_isSome]
  cases h : max_by_value traits with
  | none => simp [compose_headline, h]
  | some p =>
    obtain ⟨a, b⟩ := p
    simp [compose_headline, h]

theorem valid_responses_spec {rs : List (String × String)} (h : valid_responses rs = true) :
    ∀ q ∈ build_questions, ∃ oid, alookup rs q.id = some oid ∧ oid ∈ q.options.map QOption.id := by
  intro q hq
  rw [valid_responses, List.all_eq_true] at h
  have hx := h q hq
  cases halk : alookup rs q.id with
  | none => rw [halk] at hx; simp at hx
  | some oid =>
    rw [halk] at hx
    simp only [decide_eq_true_eq] at hx
    exact ⟨oid, rfl, hx⟩

theorem missing_filter_nil {rs : List (String × String)}
    (h : ∀ qid ∈ question_ids, (alookup rs qid).isSome = true) :
    question_ids.filter (fun qid => (alookup rs qid).isNone) = [] := by
  rw [List.filter_eq_nil_iff]
  intro qid hq
  obtain ⟨v, hv⟩ := Option.isSome_iff_exists.mp (h qid hq)
  simp [hv]

theorem check_options_ok {rs : List (String × String)} :
    ∀ qs : List Question,
      (∀ q ∈ qs, ∃ oid, alookup rs q.id = some oid ∧ oid ∈ q.options.map QOption.id) →
      check_options qs rs = .ok ()
  | [], _ => rfl
  | q :: qs, h => by
    obtain ⟨oid, halk, hmem⟩ := h q (List.mem_cons_self q qs)
    simp only [check_options, halk, if_pos hmem]
    exact check_options_ok qs fun q2 hq2 => h q2 (List.mem_cons_of_mem _ hq2)

theorem validate_ok_aux {rs : List (String × String)} (h : valid_responses rs = true) :
    validate rs = .ok () := by
  have hq := valid_responses_spec h
  have hmiss : question_ids.filter (fun qid => (alookup rs qid).isNone) = [] := by
    refine missing_filter_nil ?_
    intro qid hqid
    rw [question_ids, List.mem_map] at hqid
    obtain ⟨q, hqmem, rfl⟩ := hqid
    obtain ⟨oid, halk, _⟩ := hq q hqmem
    simp [halk]
  rw [validate]
  simp only [hmiss, List.isEmpty_nil, if_pos]
  exact check_options_ok build_questions hq

theorem infix_append_left {α : Type} {p b : List α} (a : List α) (h : p <:+: b) :
    p <:+: a ++ b := by
  obtain ⟨u, v, huv⟩ := h
  exact ⟨a ++ u, v, by rw [← huv]; simp [List.append_assoc]⟩

theorem mem_join_with_infix (sep : String) : ∀ (l : List String) (s : String), s ∈ l →
    s.data <:+: (join_with sep l).data
  | [], s, h => absurd h (List.not_mem_nil s)
  | [x], s, h => by
    rw [List.mem_singleton] at h
    subst h
    rw [join_with]
  | x :: y :: rest, s, h => by
    rw [join_with]
    rcases List.mem_cons.mp h with rfl | h2
    · exact ⟨[], (sep ++ join_with sep (y :: rest)).data, by
        simp [String.data_append, List.append_assoc]⟩
    · have ih := mem_join_with_infix sep (y :: rest) s h2
      have := infix_append_left ((x ++ sep).data) ih
      simpa [String.data_append, List.append_assoc] using this

theorem check_options_first_invalid :
    ∀ (qs : List Question) (rs : List (String × String)) (q oid : String),
      (∀ qn ∈ qs, (alookup rs qn.id).isSome = true) →
      spec_first_invalid_in qs rs = some (q, oid) →
      check_options qs rs = .error (invalid_option_msg q oid)
  | [], _, _, _, _, hf => by simp [spec_first_invalid_in] at hf
  | qn :: qs, rs, q, oid, hall, hf => by
    obtain ⟨o0, halk⟩ := Option.isSome_iff_exists.mp (hall qn (List.mem_cons_self qn qs))
    rw [spec_first_invalid_in, halk] at hf
    by_cases hmem : o0 ∈ qn.options.map QOption.id
    · simp only [if_pos hmem] at hf
      simp only [check_options, halk, if_pos hmem]
      exact check_options_first_invalid qs rs q oid
        (fun x hx => hall x (List.mem_cons_of_mem _ hx)) hf
    · simp only [if_neg hmem, Option.some.injEq] at hf
      obtain ⟨rfl, rfl⟩ := Prod.mk.injEq .. |>.mp hf
      simp only [check_options, halk, if_neg hmem]
      rfl

/-! ### Claim theorems -/

/-- C1 (counterexample): on an empty aggregated trait mapping the headline
composer terminates with the unguarded max-of-empty error (modelled by
`none`) rather than returning a defined "no dominant trait" fallback. -/
theorem compose_headline_empty_crashes : compose_headline "Alex" [] [] = none := rfl

/-- C1 (amended): `_compose_headline` does not guard the empty trait
mapping: it produces a headline exactly when the aggregated mapping is
non-empty, and on an empty mapping it fails with the max-of-empty error;
no "no dominant trait" fallback exists in the composer. -/
theorem compose_headline_no_guard (learner_name : String) (traits : List (String × Rat))
    (recommendations : List Recommendation) :
    (compose_headline learner_name traits recommendations).isSome = true ↔ traits ≠ [] :=
  compose_headline_isSome_iff learner_name traits recommendations

/-- C8: for every response set mapping each catalog question id to an
option id from the own option set of that question, `validate` returns without
raising. -/
theorem validate_ok_of_valid (rs : List (String × String)) (h : valid_responses rs = true) :
    validate rs = .ok () := validate_ok_aux h

/-- C8 witness: the scenario response set is valid and validates cleanly. -/
theorem validate_ok_of_valid_witness :
    valid_responses scenario_responses = true ∧ validate scenario_responses = .ok () :=
  ⟨by decide, validate_ok_of_valid scenario_responses (by decide)⟩

/-- C4: whenever at least one catalog question id is unanswered,
`validate` fails with the single `Missing responses` diagnostic built from
all missing ids, and the diagnostic contains every missing question id. -/
theorem validate_missing_collects (rs : List (String × String))
    (h : ∃ qid ∈ question_ids, alookup rs qid = none) :
    validate rs =
      .error (missing_msg (question_ids.filter fun qid => (alookup rs qid).isNone)) ∧
    ∀ qid ∈ question_ids, alookup rs qid = none →
      qid.data <:+:
        (missing_msg (question_ids.filter fun qid => (alookup rs qid).isNone)).data := by
  obtain ⟨qid0, hmem0, hnone0⟩ := h
  have hm0 : qid0 ∈ question_ids.filter (fun qid => (alookup rs qid).isNone) := by
    rw [List.mem_filter]
    exact ⟨hmem0, by simp [hnone0]⟩
  have hne := List.ne_nil_of_mem hm0
  constructor
  · rw [validate]
    simp only [List.isEmpty_eq_false.mpr hne, Bool.false_eq_true, if_neg, missing_msg,
      not_false_eq_true]
  · intro qid hq hnone
    have hmf : qid ∈ question_ids.filter (fun qid => (alookup rs qid).isNone) := by
      rw [List.mem_filter]
      exact ⟨hq, by simp [hnone]⟩
    have hj := mem_join_with_infix ", " _ qid hmf
    have := infix_append_left ("Missing responses for: ".data) hj
    simpa [missing_msg, String.data_append] using this

/-- C4 witness: the empty response set fails with a diagnostic naming all
four question ids. -/
theorem validate_missing_collects_witness :
    (validate [] =
      .error (missing_msg (question_ids.filter fun qid =>
        (alookup ([] : List (String × String)) qid).isNone))) ∧
    "strength".data <:+: (missing_msg (question_ids.filter fun qid =>
      (alookup ([] : List (String × String)) qid).isNone)).data ∧
    "values".data <:+: (missing_msg (question_ids.filter fun qid =>
      (alookup ([] : List (String × String)) qid).isNone)).data ∧
    "environment".data <:+: (missing_msg (question_ids.filter fun qid =>
      (alookup ([] : List (String × String)) qid).isNone)).data ∧
    "learning".data <:+: (missing_msg (question_ids.filter fun qid =>
      (alookup ([] : List (String × String)) qid).isNone)).data := by
  have h := validate_missing_collects [] ⟨"strength", by decide, rfl⟩
  exact ⟨h.1, h.2 "strength" (by decide) rfl, h.2 "values" (by decide) rfl,
    h.2 "environment" (by decide) rfl, h.2 "learning" (by decide) rfl⟩

/-- C5: when every catalog question is answered and some answer names an
option id outside the option set of its question, `validate` fails naming the
catalog-order-first offending question and the supplied option id. -/
theorem validate_invalid_first (rs : List (String × String)) (q oid : String)
    (hall : ∀ qid ∈ question_ids, (alookup rs qid).isSome = true)
    (hfirst : spec_first_invalid rs = some (q, oid)) :
    validate rs = .error (invalid_option_msg q oid) := by
  have hmiss := missing_filter_nil hall
  rw [validate]
  simp only [hmiss, List.isEmpty_nil, if_pos]
  refine check_options_first_invalid build_questions rs q oid ?_ hfirst
  intro qn hqn
  exact hall qn.id (by rw [question_ids, List.mem_map]; exact ⟨qn, hqn, rfl⟩)

/-- C5 witness: answering `strength` with the unknown id `nope` (others
valid) fails naming question `strength` and option `nope`. -/
theorem validate_invalid_first_witness :
    validate invalid_scenario_responses = .error (invalid_option_msg "strength" "nope") :=
  validate_invalid_first invalid_scenario_responses "strength" "nope" (by decide) (by decide)

theorem lookupD_nil (u : String) : lookupD [] u = 0 := rfl

theorem lookupD_upsert (sc : List (String × Rat)) (t : String) (w : Rat) (u : String) :
    lookupD (upsert sc t w) u = lookupD sc u + (if t = u then w else 0) := by
  induction sc with
  | nil =>
    by_cases h : t = u <;> simp [upsert, lookupD, alookup, h]
  | cons kv rest ih =>
    obtain ⟨k, v⟩ := kv
    by_cases hkt : k = t
    · subst hkt
      by_cases hku : k = u
      · subst hku
        simp [upsert, lookupD, alookup]
      · simp [upsert, lookupD, alookup, hku]
    · by_cases hku : k = u
      · subst hku
        have htu : ¬t = k := fun h => hkt h.symm
        simp [upsert, lookupD, alookup, hkt, htu]
      · simpa [upsert, lookupD, alookup, hkt, hku] using ih

theorem mem_keys_upsert (sc : List (String × Rat)) (t : String) (w : Rat) (u : String) :
    u ∈ keys (upsert sc t w) ↔ u ∈ keys sc ∨ u = t := by
  induction sc with
  | nil => simp [upsert, keys]
  | cons kv rest ih =>
    obtain ⟨k, v⟩ := kv
    by_cases hkt : k = t
    · subst hkt
      simp only [upsert, if_pos, keys, List.map_cons, List.mem_cons]
      tauto
    · simp only [upsert, if_neg hkt, keys, List.map_cons, List.mem_cons] at ih ⊢
      rw [ih]
      tauto

theorem lookupD_apply_weights (w : List (String × Rat)) :
    ∀ (sc : List (String × Rat)) (u : String),
      lookupD (apply_weights sc w) u = lookupD sc u + wsum w u := by
  induction w with
  | nil => intro sc u; simp [apply_weights, wsum]
  | cons kv w ih =>
    intro sc u
    obtain ⟨k, v⟩ := kv
    have hstep : apply_weights sc ((k, v) :: w) = apply_weights (upsert sc k v) w := rfl
    rw [hstep, ih (upsert sc k v) u, lookupD_upsert, wsum]
    ring

theorem mem_keys_apply_weights (w : List (String × Rat)) :
    ∀ (sc : List (String × Rat)) (u : String),
      u ∈ keys (apply_weights sc w) ↔ u ∈ keys sc ∨ u ∈ keys w := by
  induction w with
  | nil => intro sc u; simp [apply_weights, keys]
  | cons kv w ih =>
    intro sc u
    obtain ⟨k, v⟩ := kv
    have hstep : apply_weights sc ((k, v) :: w) = apply_weights (upsert sc k v) w := rfl
    rw [hstep, ih (upsert sc k v) u, mem_keys_upsert]
    simp only [keys, List.map_cons, List.mem_cons]
    tauto

theorem upsert_ne_nil (sc : List (String × Rat)) (t : String) (w : Rat) :
    upsert sc t w ≠ [] := by
  cases sc with
  | nil => simp [upsert]
  | cons kv rest =>
    obtain ⟨k, v⟩ := kv
    by_cases h : k = t <;> simp [upsert, h]

theorem apply_weights_ne_nil (w : List (String × Rat)) :
    ∀ sc : List (String × Rat), sc ≠ [] ∨ w ≠ [] → apply_weights sc w ≠ [] := by
  induction w with
  | nil =>
    intro sc h
    rcases h with h | h
    · simpa [apply_weights] using h
    · exact absurd rfl h
  | cons kv w ih =>
    intro sc _
    obtain ⟨k, v⟩ := kv
    have hstep : apply_weights sc ((k, v) :: w) = apply_weights (upsert sc k v) w := rfl
    rw [hstep]
    exact ih (upsert sc k v) (Or.inl (upsert_ne_nil sc k v))

theorem agg_go_lookupD :
    ∀ (qs : List Question) (rs : List (String × String)) (sc out : List (String × Rat)),
      agg_go qs rs sc = some out → ∀ u : String,
      lookupD out u = lookupD sc u + (qs.map (spec_question_contrib rs u)).sum
  | [], _, sc, out, h, u => by
    simp only [agg_go, Option.some.injEq] at h
    subst h
    simp
  | q :: qs, rs, sc, out, h, u => by
    cases halk : alookup rs q.id with
    | none => simp only [agg_go, halk] at h; exact Option.noConfusion h
    | some oid =>
      cases hopt : option_by_id q.options oid with
      | none => simp only [agg_go, halk, hopt] at h; exact Option.noConfusion h
      | some o =>
        simp only [agg_go, halk, hopt] at h
        have ih := agg_go_lookupD qs rs (apply_weights sc o.weight) out h u
        rw [ih, lookupD_apply_weights]
        have hc : spec_question_contrib rs u q = wsum o.weight u := by
          simp [spec_question_contrib, selected_option, halk, hopt]
        simp only [List.map_cons, List.sum_cons, hc]
        ring

theorem agg_go_keys :
    ∀ (qs : List Question) (rs : List (String × String)) (sc out : List (String × Rat)),
      agg_go qs rs sc = some out → ∀ u : String,
      (u ∈ keys out ↔ u ∈ keys sc ∨
        ∃ q ∈ qs, ∃ o, selected_option rs q = some o ∧ u ∈ keys o.weight)
  | [], _, sc, out, h, u => by
    simp only [agg_go, Option.some.injEq] at h
    subst h
    simp
  | q :: qs, rs, sc, out, h, u => by
    cases halk : alookup rs q.id with
    | none => simp only [agg_go, halk] at h; exact Option.noConfusion h
    | some oid =>
      cases hopt : option_by_id q.options oid with
      | none => simp only [agg_go, halk, hopt] at h; exact Option.noConfusion h
      | some o =>
        simp only [agg_go, halk, hopt] at h
        have ih := agg_go_keys qs rs (apply_weights sc o.weight) out h u
        rw [ih, mem_keys_apply_weights]
        have hsel : selected_option rs q = some o := by
          simp [selected_option, halk, hopt]
        constructor
        · rintro ((hs | hw) | ⟨q2, hq2, o2, hso2, hw2⟩)
          · exact Or.inl hs
          · exact Or.inr ⟨q, List.mem_cons_self q qs, o, hsel, hw⟩
          · exact Or.inr ⟨q2, List.mem_cons_of_mem _ hq2, o2, hso2, hw2⟩
        · rintro (hs | ⟨q2, hq2, o2, hso2, hw2⟩)
          · exact Or.inl (Or.inl hs)
          · rcases List.mem_cons.mp hq2 with rfl | hq2
            · rw [hsel] at hso2
              obtain rfl : o = o2 := by injection hso2
              exact Or.inl (Or.inr hw2)
            · exact Or.inr ⟨q2, hq2, o2, hso2, hw2⟩

theorem agg_go_isSome :
    ∀ (qs : List Question) (rs : List (String × String)) (sc : List (String × Rat)),
      (∀ q ∈ qs, (selected_option rs q).isSome = true) →
      ∃ out, agg_go qs rs sc = some out
  | [], _, sc, _ => ⟨sc, rfl⟩
  | q :: qs, rs, sc, h => by
    have hq := h q (List.mem_cons_self q qs)
    cases halk : alookup rs q.id with
    | none => simp [selected_option, halk] at hq
    | some oid =>
      cases hopt : option_by_id q.options oid with
      | none => simp [selected_option, halk, hopt] at hq
      | some o =>
        obtain ⟨out, hout⟩ := agg_go_isSome qs rs (apply_weights sc o.weight)
          (fun x hx => h x (List.mem_cons_of_mem _ hx))
        exact ⟨out, by simp only [agg_go, halk, hopt]; exact hout⟩

theorem agg_go_ne_nil :
    ∀ (qs : List Question) (rs : List (String × String)) (sc out : List (String × Rat)),
      agg_go qs rs sc = some out → sc ≠ [] → out ≠ []
  | [], _, sc, out, h, hne => by
    simp only [agg_go, Option.some.injEq] at h
    exact h ▸ hne
  | q :: qs, rs, sc, out, h, hne => by
    cases halk : alookup rs q.id with
    | none => simp only [agg_go, halk] at h; exact Option.noConfusion h
    | some oid =>
      cases hopt : option_by_id q.options oid with
      | none => simp only [agg_go, halk, hopt] at h; exact Option.noConfusion h
      | some o =>
        simp only [agg_go, halk, hopt] at h
        exact agg_go_ne_nil qs rs _ out h (apply_weights_ne_nil _ _ (Or.inl hne))

theorem valid_selected {rs : List (String × String)} (h : valid_responses rs = true) :
    ∀ q ∈ build_questions, (selected_option rs q).isSome = true := by
  intro q hq
  obtain ⟨oid, halk, hmem⟩ := valid_responses_spec h q hq
  rw [List.mem_map] at hmem
  obtain ⟨o, homem, hid⟩ := hmem
  have hfind : (option_by_id q.options oid).isSome = true := by
    rw [option_by_id, List.find?_isSome]
    exact ⟨o, homem, by simp [hid]⟩
  rw [selected_option, halk]
  simpa using hfind

theorem agg_nonempty_of_weights (qs : List Question) (rs : List (String × String))
    (out : List (String × Rat)) (hqs : qs ≠ [])
    (hw : ∀ q ∈ qs, ∀ o ∈ q.options, o.weight ≠ [])
    (h : agg_go qs rs [] = some out) : out ≠ [] := by
  cases qs with
  | nil => exact absurd rfl hqs
  | cons q rest =>
    cases halk : alookup rs q.id with
    | none => simp only [agg_go, halk] at h; exact Option.noConfusion h
    | some oid =>
      cases hopt : option_by_id q.options oid with
      | none => simp only [agg_go, halk, hopt] at h; exact Option.noConfusion h
      | some o =>
        simp only [agg_go, halk, hopt] at h
        rw [option_by_id] at hopt
        have homem : o ∈ q.options := List.mem_of_find?_eq_some hopt
        have hwne := hw q (List.mem_cons_self q rest) o homem
        exact agg_go_ne_nil rest rs _ out h (apply_weights_ne_nil _ _ (Or.inr hwne))

/-- C6: for every response set the aggregator accepts, the resulting
mapping gives each trait exactly the catalog-order sum of the weights the
selected options assign to it, and mentions a trait if and only if some
selected option has the trait in its weight vector. -/
theorem aggregate_traits_spec (rs : List (String × String)) (sc : List (String × Rat))
    (hagg : aggregate_traits rs = some sc) :
    (∀ t, lookupD sc t = spec_trait_sum rs t) ∧
    (∀ t, t ∈ keys sc ↔
      ∃ q ∈ build_questions, ∃ o, selected_option rs q = some o ∧ t ∈ keys o.weight) := by
  rw [aggregate_traits, aggregate_traits_with] at hagg
  constructor
  · intro t
    have h := agg_go_lookupD build_questions rs [] sc hagg t
    simpa [spec_trait_sum, lookupD_nil] using h
  · intro t
    have h := agg_go_keys build_questions rs [] sc hagg t
    simpa [keys] using h

/-- C6 witness: the scenario aggregation instantiated at the trait
`analytical`. -/
theorem aggregate_traits_spec_witness :
    lookupD scenario_scores "analytical" = spec_trait_sum scenario_responses "analytical" ∧
    ("analytical" ∈ keys scenario_scores ↔
      ∃ q ∈ build_questions, ∃ o, selected_option scenario_responses q = some o ∧
        "analytical" ∈ keys o.weight) := by
  have h := aggregate_traits_spec scenario_responses scenario_scores (by decide)
  exact ⟨h.1 "analytical", h.2 "analytical"⟩

/-- C7: over exact arithmetic, aggregating a valid response set along any
permutation of the question list yields the same score for every trait as
catalog order. -/
theorem aggregate_perm_invariant (qs : List Question) (rs : List (String × String)) (t : String)
    (hperm : qs.Perm build_questions) (hval : valid_responses rs = true) :
    ∃ out out₀, aggregate_traits_with qs rs = some out ∧ aggregate_traits rs = some out₀ ∧
      lookupD out t = lookupD out₀ t := by
  have hsel := valid_selected hval
  have hsel2 : ∀ q ∈ qs, (selected_option rs q).isSome = true :=
    fun q hq => hsel q (hperm.mem_iff.mp hq)
  obtain ⟨out, hout⟩ := agg_go_isSome qs rs [] hsel2
  obtain ⟨outq, houtq⟩ := agg_go_isSome build_questions rs [] hsel
  refine ⟨out, outq, hout, houtq, ?_⟩
  have h1 := agg_go_lookupD qs rs [] out hout t
  have h2 := agg_go_lookupD build_questions rs [] outq houtq t
  rw [h1, h2]
  have hs : (qs.map (spec_question_contrib rs t)).sum =
      (build_questions.map (spec_question_contrib rs t)).sum :=
    (hperm.map _).sum_eq
  rw [hs]

/-- C7 witness: aggregating the scenario responses with the question list
reversed leaves the `technical` score unchanged. -/
theorem aggregate_perm_invariant_witness :
    ∃ out outq, aggregate_traits_with build_questions.reverse scenario_responses = some out ∧
      aggregate_traits scenario_responses = some outq ∧
      lookupD out "technical" = lookupD outq "technical" :=
  aggregate_perm_invariant build_questions.reverse scenario_responses "technical"
    (List.reverse_perm build_questions) (by decide)

/-- C10: every option of every built-in question carries a non-empty
weight vector; hence for every valid response set the aggregated mapping
is non-empty, the headline max never runs on an empty collection, and
`evaluate` succeeds. -/
theorem questionnaire_weights_nonempty :
    (build_questions.all fun q => q.options.all fun o => !o.weight.isEmpty) = true ∧
    ∀ (learner_name : String) (rs : List (String × String)), valid_responses rs = true →
      ∃ sc, aggregate_traits rs = some sc ∧ sc ≠ [] ∧
        (max_by_value sc).isSome = true ∧ (evaluate learner_name rs).isSome = true := by
  refine ⟨by decide, ?_⟩
  intro learner_name rs hval
  obtain ⟨sc, hsc⟩ := agg_go_isSome build_questions rs [] (valid_selected hval)
  have hagg : aggregate_traits rs = some sc := hsc
  have hne : sc ≠ [] := by
    refine agg_nonempty_of_weights build_questions rs sc (by decide) (by decide) hsc
  have hmax := (max_by_value_isSome sc).mpr hne
  have hvok := validate_ok_aux hval
  have hch : (compose_headline learner_name sc
      (((rank_paths sc).map create_recommendation).take 3)).isSome = true :=
    (compose_headline_isSome_iff _ _ _).mpr hne
  obtain ⟨hl, hhl⟩ := Option.isSome_iff_exists.mp hch
  refine ⟨sc, hagg, hne, hmax, ?_⟩
  simp [evaluate, hvok, hagg, hhl]

/-- C10 witness: the guarantee instantiated at the scenario input. -/
theorem questionnaire_weights_nonempty_witness :
    ∃ sc, aggregate_traits scenario_responses = some sc ∧ sc ≠ [] ∧
      (max_by_value sc).isSome = true ∧ (evaluate "Alex" scenario_responses).isSome = true :=
  questionnaire_weights_nonempty.2 "Alex" scenario_responses (by decide)

/-- C2: for every trait profile the ranker returns a permutation of the
full catalog, sorted by descending match score, and any two paths with
equal scores keep their catalog order (stability). -/
theorem rank_paths_spec (traits : List (String × Rat)) :
    (rank_paths traits).Perm build_career_library ∧
    (rank_paths traits).Sorted (fun p q => match_score q traits ≤ match_score p traits) ∧
    ∀ p q : CareerPath, ([p, q]).Sublist build_career_library →
      match_score p traits = match_score q traits → ([p, q]).Sublist (rank_paths traits) := by
  refine ⟨List.perm_insertionSort _ _, ?_, ?_⟩
  · haveI h1 : IsTotal CareerPath (fun p q => match_score q traits ≤ match_score p traits) :=
      ⟨fun a b => le_total _ _⟩
    haveI h2 : IsTrans CareerPath (fun p q => match_score q traits ≤ match_score p traits) :=
      ⟨fun a b c hab hbc => le_trans hbc hab⟩
    exact List.sorted_insertionSort _ _
  · intro p q hsub heq
    exact List.pair_sublist_insertionSort (le_of_eq heq.symm) hsub

set_option maxRecDepth 4000 in
/-- C2 witness: with an empty trait profile every score is `0`, and the
first two catalog paths keep their catalog order in the ranking. -/
theorem rank_paths_spec_witness :
    (rank_paths []).Perm build_career_library ∧ ([catalog0, catalog1]).Sublist (rank_paths []) :=
  ⟨(rank_paths_spec []).1,
   (rank_paths_spec []).2.2 catalog0 catalog1 (by decide) (by decide)⟩

/-- C3: the scenario responses score `analytical` and `technical` strictly
above `social` and `creative`, and the top recommendation is the
Data and AI Explorer path. -/
theorem scenario_end_to_end :
    ∃ ev, evaluate "Alex" scenario_responses = some ev ∧
      lookupD ev.traits.scores "social" < lookupD ev.traits.scores "analytical" ∧
      lookupD ev.traits.scores "creative" < lookupD ev.traits.scores "analytical" ∧
      lookupD ev.traits.scores "social" < lookupD ev.traits.scores "technical" ∧
      lookupD ev.traits.scores "creative" < lookupD ev.traits.scores "technical" ∧
      (ev.recommendations.map Recommendation.title).head? = some "Data & AI Explorer" :=
  ⟨_, rfl, by decide, by decide, by decide, by decide, by decide⟩

theorem split_nl_nl (y : List Char) : split_nl (Char.ofNat 10 :: y) = [] :: split_nl y := by
  simp [split_nl]

theorem split_nl_append_nl (x y : List Char) (hx : ∀ c ∈ x, c ≠ '\n') :
    split_nl (x ++ '\n' :: y) = x :: split_nl y := by
  induction x with
  | nil => simp [split_nl]
  | cons c x ih =>
    have hc : ¬c = '\n' := hx c (List.mem_cons_self c x)
    have ih2 := ih (fun d hd => hx d (List.mem_cons_of_mem _ hd))
    rw [List.cons_append, split_nl, if_neg hc, ih2]

theorem split_nl_no_nl (x : List Char) (hx : ∀ c ∈ x, c ≠ '\n') : split_nl x = [x] := by
  induction x with
  | nil => rfl
  | cons c x ih =>
    have hc : ¬c = '\n' := hx c (List.mem_cons_self c x)
    simp only [split_nl, if_neg hc, ih (fun d hd => hx d (List.mem_cons_of_mem _ hd))]

theorem is_blank_false_of_mem {l : List Char} {c : Char} (hc : c ∈ l)
    (hnw : is_ws c = false) : is_blank l = false := by
  have hall : l.all is_ws = false := by
    rw [List.all_eq_false]
    exact ⟨c, hc, by simp [hnw]⟩
  simp [is_blank, hall]

theorem take_ws_ws_append (a r : List Char) (ha : ∀ c ∈ a, is_ws c = true) :
    take_ws (a ++ r) = a ++ take_ws r := by
  induction a with
  | nil => simp
  | cons c a ih =>
    have hc := ha c (List.mem_cons_self c a)
    simp only [List.cons_append, take_ws, List.takeWhile_cons, hc, if_true]
    simpa [take_ws] using ih (fun d hd => ha d (List.mem_cons_of_mem _ hd))

theorem take_ws_stop (a : List Char) (c : Char) (r : List Char)
    (ha : ∀ d ∈ a, is_ws d = true) (hc : is_ws c = false) :
    take_ws (a ++ c :: r) = a := by
  rw [take_ws_ws_append a (c :: r) ha]
  simp [take_ws, List.takeWhile_cons, hc]

theorem lcp_self_append (x y : List Char) : lcp x (x ++ y) = x := by
  induction x with
  | nil => rfl
  | cons c x ih => simp [lcp, ih]

theorem lcp_self (x : List Char) : lcp x x = x := by
  have h := lcp_self_append x []
  simpa using h

theorem starts_with_append (m r : List Char) : starts_with m (m ++ r) = true := by
  induction m with
  | nil => rfl
  | cons c m ih => simp [starts_with, ih]

theorem starts_with_nil_false (c : Char) (m : List Char) :
    starts_with (c :: m) [] = false := rfl

theorem max_by_value_mem :
    ∀ (l : List (String × Rat)) (p : String × Rat), max_by_value l = some p → p ∈ l
  | [], p, h => Option.noConfusion h
  | q :: rest, p, h => by
    cases hrest : max_by_value rest with
    | none =>
      simp only [max_by_value, hrest, Option.some.injEq] at h
      exact h ▸ List.mem_cons_self q rest
    | some m =>
      simp only [max_by_value, hrest, Option.some.injEq] at h
      by_cases hlt : q.2 < m.2
      · rw [if_pos hlt] at h
        exact List.mem_cons_of_mem _ (h ▸ max_by_value_mem rest m hrest)
      · rw [if_neg hlt] at h
        exact h ▸ List.mem_cons_self q rest

theorem digit_char_ne_nl (n : Nat) : digit_char n ≠ '\n' := by
  have h : n % 10 < 10 := Nat.mod_lt _ (by decide)
  rw [digit_char]
  generalize n % 10 = k at h
  interval_cases k <;> decide

theorem nat_digits_aux_ne_nl :
    ∀ (fuel n : Nat) (c : Char), c ∈ nat_digits_aux fuel n → c ≠ '\n'
  | 0, n, c, hc => by
    rw [nat_digits_aux, List.mem_singleton] at hc
    exact hc ▸ digit_char_ne_nl n
  | fuel + 1, n, c, hc => by
    rw [nat_digits_aux] at hc
    by_cases h : n < 10
    · rw [if_pos h, List.mem_singleton] at hc
      exact hc ▸ digit_char_ne_nl n
    · rw [if_neg h, List.mem_append] at hc
      rcases hc with hc | hc
      · exact nat_digits_aux_ne_nl fuel (n / 10) c hc
      · rw [List.mem_singleton] at hc
        exact hc ▸ digit_char_ne_nl (n % 10)

theorem nat_str_ne_nl (n : Nat) (c : Char) (hc : c ∈ (nat_str n).data) : c ≠ '\n' :=
  nat_digits_aux_ne_nl n n c hc

theorem fmt1_ne_nl (q : Rat) (c : Char) (hc : c ∈ (fmt1 q).data) : c ≠ '\n' := by
  have hdot : (".".data : List Char) = ['.'] := rfl
  rw [fmt1] at hc
  simp only [String.data_append, hdot, List.mem_append, List.mem_singleton] at hc
  rcases hc with (hc | hc) | hc
  · exact nat_str_ne_nl _ c hc
  · exact hc ▸ (by decide)
  · exact nat_str_ne_nl _ c hc

theorem dropWhile_pyspace_nl (s : List Char) :
    List.dropWhile is_pyspace ('\n' :: s) = List.dropWhile is_pyspace s := by
  rw [List.dropWhile_cons_of_pos (by decide)]

theorem strip_right_append_nl (s : List Char) :
    ((s ++ ['\n']).reverse.dropWhile is_pyspace).reverse =
      (s.reverse.dropWhile is_pyspace).reverse := by
  rw [List.reverse_append]
  simp only [List.reverse_cons, List.reverse_nil, List.nil_append, List.singleton_append]
  rw [List.dropWhile_cons_of_pos (by decide)]

theorem strip_right_last (pre : List Char) (last : Char) (hlast : is_pyspace last = false) :
    (((pre ++ [last]).reverse.dropWhile is_pyspace).reverse) = pre ++ [last] := by
  rw [List.reverse_append]
  simp only [List.reverse_cons, List.reverse_nil, List.nil_append, List.singleton_append]
  rw [List.dropWhile_cons_of_neg (by simp [hlast])]
  simp

theorem dedent_four_lines (sp a m w : List Char)
    (hsp_ws : ∀ c ∈ sp, is_ws c = true) (hsp_ne : sp ≠ [])
    (ha : ∃ c r, a = c :: r ∧ is_ws c = false)
    (hm : ∃ c r, m = c :: r ∧ is_ws c = false)
    (hw : ∃ c ∈ w, is_ws c = false)
    (hanl : ∀ c ∈ a, c ≠ '\n') (hmnl : ∀ c ∈ m, c ≠ '\n') (hwnl : ∀ c ∈ w, c ≠ '\n')
    (hspnl : ∀ c ∈ sp, c ≠ '\n') :
    dedent_chars ('\n' :: ((sp ++ a) ++ '\n' :: ((sp ++ m) ++ '\n' :: ((sp ++ w) ++ '\n' :: sp)))) =
      '\n' :: (a ++ '\n' :: (m ++ '\n' :: (w ++ ['\n']))) := by
  obtain ⟨ca, ra, hae, hca⟩ := ha
  obtain ⟨cm, rm, hme, hcm⟩ := hm
  obtain ⟨cw, hcwm, hcw⟩ := hw
  have hLanl : ∀ c ∈ sp ++ a, c ≠ '\n' := by
    intro c hc
    rcases List.mem_append.mp hc with hc | hc
    · exact hspnl c hc
    · exact hanl c hc
  have hLmnl : ∀ c ∈ sp ++ m, c ≠ '\n' := by
    intro c hc
    rcases List.mem_append.mp hc with hc | hc
    · exact hspnl c hc
    · exact hmnl c hc
  have hLwnl : ∀ c ∈ sp ++ w, c ≠ '\n' := by
    intro c hc
    rcases List.mem_append.mp hc with hc | hc
    · exact hspnl c hc
    · exact hwnl c hc
  have hsplit : split_nl
      ('\n' :: ((sp ++ a) ++ '\n' :: ((sp ++ m) ++ '\n' :: ((sp ++ w) ++ '\n' :: sp)))) =
      [[], sp ++ a, sp ++ m, sp ++ w, sp] := by
    rw [split_nl_nl, split_nl_append_nl _ _ hLanl, split_nl_append_nl _ _ hLmnl,
      split_nl_append_nl _ _ hLwnl, split_nl_no_nl _ hspnl]
  have hb0 : is_blank ([] : List Char) = false := rfl
  have hba : is_blank (sp ++ a) = false :=
    is_blank_false_of_mem (List.mem_append_right _ (hae ▸ List.mem_cons_self ca ra)) hca
  have hbm : is_blank (sp ++ m) = false :=
    is_blank_false_of_mem (List.mem_append_right _ (hme ▸ List.mem_cons_self cm rm)) hcm
  have hbw : is_blank (sp ++ w) = false :=
    is_blank_false_of_mem (List.mem_append_right _ hcwm) hcw
  have hbsp : is_blank sp = true := by
    rw [is_blank, List.all_eq_true.mpr hsp_ws, Bool.and_true, Bool.not_eq_true',
      List.isEmpty_eq_false]
    exact hsp_ne
  have hnea : (sp ++ a).isEmpty = false := by
    rw [List.isEmpty_eq_false]
    exact List.append_ne_nil_of_right_ne_nil _ (hae ▸ List.cons_ne_nil ca ra)
  have hnem : (sp ++ m).isEmpty = false := by
    rw [List.isEmpty_eq_false]
    exact List.append_ne_nil_of_right_ne_nil _ (hme ▸ List.cons_ne_nil cm rm)
  have hnew : (sp ++ w).isEmpty = false := by
    rw [List.isEmpty_eq_false]
    intro hcontra
    exact hsp_ne (List.append_eq_nil.mp hcontra).1
  have htwa : take_ws (sp ++ a) = sp := by
    rw [hae]
    exact take_ws_stop sp ca ra hsp_ws hca
  have htwm : take_ws (sp ++ m) = sp := by
    rw [hme]
    exact take_ws_stop sp cm rm hsp_ws hcm
  have htww : take_ws (sp ++ w) = sp ++ take_ws w := take_ws_ws_append sp w hsp_ws
  obtain ⟨c0, sp0, hspe⟩ := List.exists_cons_of_ne_nil hsp_ne
  have hsw0 : starts_with sp ([] : List Char) = false := by
    rw [hspe]
    rfl
  have hswa : starts_with sp (sp ++ a) = true := starts_with_append sp a
  have hswm : starts_with sp (sp ++ m) = true := starts_with_append sp m
  have hsww : starts_with sp (sp ++ w) = true := starts_with_append sp w
  rw [dedent_chars]
  rw [hsplit]
  simp only [List.map_cons, List.map_nil, hb0, hba, hbm, hbw, hbsp, if_true, if_false,
    Bool.false_eq_true, List.filter_cons, List.filter_nil, List.isEmpty_nil, hnea, hnem, hnew,
    Bool.not_false, Bool.not_true, htwa, htwm, htww, lcp_list, lcp_self_append, lcp_self,
    hsw0, hswa, hswm, hsww, List.drop_left, join_nl]
  simp

theorem strip_intro (a m w : List Char)
    (ha : ∃ c r, a = c :: r ∧ is_pyspace c = false)
    (hwlast : ∃ pre last, w = pre ++ [last] ∧ is_pyspace last = false) :
    strip_chars ('\n' :: (a ++ '\n' :: (m ++ '\n' :: (w ++ ['\n'])))) =
      a ++ '\n' :: (m ++ '\n' :: w) := by
  obtain ⟨ca, ra, hae, hca⟩ := ha
  obtain ⟨pre, last, hwe, hlast⟩ := hwlast
  rw [strip_chars, dropWhile_pyspace_nl]
  have hfront : List.dropWhile is_pyspace (a ++ '\n' :: (m ++ '\n' :: (w ++ ['\n']))) =
      a ++ '\n' :: (m ++ '\n' :: (w ++ ['\n'])) := by
    rw [hae, List.cons_append, List.dropWhile_cons_of_neg (by simp [hca])]
  rw [hfront]
  have hre : a ++ '\n' :: (m ++ '\n' :: (w ++ ['\n'])) =
      (a ++ '\n' :: (m ++ '\n' :: w)) ++ ['\n'] := by
    simp [List.append_assoc]
  rw [hre, strip_right_append_nl]
  have hre2 : a ++ '\n' :: (m ++ '\n' :: w) =
      (a ++ '\n' :: (m ++ '\n' :: pre)) ++ [last] := by
    rw [hwe]
    simp [List.append_assoc]
  rw [hre2, strip_right_last _ _ hlast]

theorem intro_pipeline (nm hl : List Char)
    (hnm : ∀ c ∈ nm, c ≠ '\n') (hhl : ∀ c ∈ hl, c ≠ '\n')
    (hnw : ∃ c ∈ hl, is_ws c = false)
    (hlast : ∃ pre last, hl = pre ++ [last] ∧ is_pyspace last = false) :
    strip_chars (dedent_chars
      (("\n        Hey ").data ++ nm ++
       ((",\n        Here\x27s a quick look at how your strengths and motivations can shape your next steps.\n        ").data) ++
       hl ++ ("\n        ").data)) =
    ("Hey ").data ++ nm ++
      ((",\nHere\x27s a quick look at how your strengths and motivations can shape your next steps.\n").data) ++
      hl := by
  have hshape : ("\n        Hey ").data ++ nm ++
       ((",\n        Here\x27s a quick look at how your strengths and motivations can shape your next steps.\n        ").data) ++
       hl ++ ("\n        ").data =
      '\n' :: ((("        ").data ++ (("Hey ").data ++ nm ++ [','])) ++
        '\n' :: ((("        ").data ++ ("Here\x27s a quick look at how your strengths and motivations can shape your next steps.").data) ++
        '\n' :: ((("        ").data ++ hl) ++ '\n' :: ("        ").data))) := by
    simp [List.append_assoc]
  rw [hshape]
  have hanl : ∀ c ∈ ("Hey ").data ++ nm ++ [','], c ≠ '\n' := by
    intro c hc
    rcases List.mem_append.mp hc with hc | hc
    · rcases List.mem_append.mp hc with hc | hc
      · exact (by decide : ∀ c ∈ ("Hey ").data, c ≠ '\n') c hc
      · exact hnm c hc
    · rw [List.mem_singleton] at hc
      exact hc ▸ (by decide)
  rw [dedent_four_lines _ _ _ _ (by decide) (by decide)
    ⟨'H', ("ey ").data ++ nm ++ [','], by simp, by decide⟩
    ⟨'H', ("ere\x27s a quick look at how your strengths and motivations can shape your next steps.").data, by simp, by decide⟩
    hnw hanl (by decide) hhl (by decide)]
  rw [strip_intro _ _ _
    ⟨'H', ("ey ").data ++ nm ++ [','], by simp, by decide⟩ hlast]
  simp [List.append_assoc]

theorem starts_with_iff : ∀ (p s : List Char), starts_with p s = true ↔ p <+: s
  | [], s => by simp [starts_with]
  | c :: p, [] => by simp [starts_with]
  | c :: p, d :: s => by
    rw [starts_with, List.cons_prefix_cons, Bool.and_eq_true, beq_iff_eq, starts_with_iff p s]

theorem sub_occurs_iff : ∀ (p s : List Char), sub_occurs p s = true ↔ p <:+: s
  | p, [] => by
    rw [sub_occurs, starts_with_iff]
    constructor
    · intro h
      exact List.IsPrefix.isInfix h
    · intro h
      exact (List.infix_nil.mp h) ▸ List.nil_prefix
  | p, c :: s => by
    rw [sub_occurs, Bool.or_eq_true, starts_with_iff, sub_occurs_iff p s,
      List.infix_cons_iff]

theorem not_infix_of_sub_occurs_false {p s : List Char} (h : sub_occurs p s = false) :
    ¬ p <:+: s := by
  intro hinf
  rw [(sub_occurs_iff p s).mpr hinf] at h
  exact Bool.noConfusion h

theorem infix_append_right {α : Type} {p a : List α} (b : List α) (h : p <:+: a) :
    p <:+: a ++ b := by
  obtain ⟨u, v, huv⟩ := h
  exact ⟨u, v ++ b, by rw [← huv]; simp [List.append_assoc]⟩

theorem compose_intro_eval (ev : Evaluation)
    (hnm : ∀ c ∈ ev.learner_name.data, c ≠ '\n')
    (hhl : ∀ c ∈ ev.headline.data, c ≠ '\n')
    (hnw : ∃ c ∈ ev.headline.data, is_ws c = false)
    (hlast : ∃ pre last, ev.headline.data = pre ++ [last] ∧ is_pyspace last = false) :
    (compose_intro ev).data =
      ("Hey ").data ++ ev.learner_name.data ++
      ((",\nHere\x27s a quick look at how your strengths and motivations can shape your next steps.\n").data) ++
      ev.headline.data := by
  have h := intro_pipeline ev.learner_name.data ev.headline.data hnm hhl hnw hlast
  rw [← h]
  rw [compose_intro, strip, dedent]
  simp [String.data_append]

theorem compose_headline_chars (nm : String) (traits : List (String × Rat))
    (recs : List Recommendation) (hl : String)
    (hch : compose_headline nm traits recs = some hl)
    (hnm : ∀ c ∈ nm.data, c ≠ '\n')
    (htr : ∀ p ∈ traits, ∀ c ∈ (p : String × Rat).1.data, c ≠ '\n')
    (hrecs : ∀ r ∈ recs, ∀ c ∈ (r : Recommendation).title.data, c ≠ '\n') :
    (∀ c ∈ hl.data, c ≠ '\n') ∧ (∃ c ∈ hl.data, is_ws c = false) ∧
    (∃ pre last, hl.data = pre ++ [last] ∧ is_pyspace last = false) := by
  cases hmax : max_by_value traits with
  | none => rw [compose_headline.eq_def, hmax] at hch; exact Option.noConfusion hch
  | some p =>
    obtain ⟨t, s⟩ := p
    have htmem : (t, s) ∈ traits := max_by_value_mem traits (t, s) hmax
    have htnl : ∀ c ∈ t.data, c ≠ '\n' := htr (t, s) htmem
    rw [compose_headline.eq_def, hmax] at hch
    have hlead : ∀ c ∈ (match recs with
        | [] => "new paths"
        | r :: _ => r.title).data, c ≠ '\n' := by
      cases recs with
      | nil => decide
      | cons r rest => exact hrecs r (List.mem_cons_self r rest)
    simp only [Option.some.injEq] at hch
    subst hch
    refine ⟨?_, ?_, ?_⟩
    · intro c hc
      simp only [String.data_append, List.mem_append] at hc
      rcases hc with ((((((((hc | hc) | hc) | hc) | hc) | hc) | hc) | hc))
      · exact hnm c hc
      · exact (by decide : ∀ c ∈ (", your top trait is ").data, c ≠ '\n') c hc
      · exact htnl c hc
      · exact (by decide : ∀ c ∈ (" (").data, c ≠ '\n') c hc
      · exact fmt1_ne_nl s c hc
      · exact (by decide : ∀ c ∈ (") and you\x27re well suited for ").data, c ≠ '\n') c hc
      · exact hlead c hc
      · exact (by decide : ∀ c ∈ (".").data, c ≠ '\n') c hc
    · refine ⟨',', ?_, by decide⟩
      simp only [String.data_append, List.mem_append]
      exact Or.inl (Or.inl (Or.inl (Or.inl (Or.inl (Or.inl (Or.inr
        (by decide : ',' ∈ (", your top trait is ").data)))))))
    · refine ⟨(nm ++ ", your top trait is " ++ t ++ " (" ++ fmt1 s ++
        ") and you\x27re well suited for " ++ (match recs with
          | [] => "new paths"
          | r :: _ => r.title)).data, '.', ?_, by decide⟩
      simp [String.data_append]

theorem enum_describe_length : ∀ (i : Nat) (recs : List Recommendation),
    (enum_describe i recs).length = recs.length
  | _, [] => rfl
  | i, r :: rest => by
    rw [enum_describe, List.length_cons, List.length_cons, enum_describe_length (i + 1) rest]

set_option maxRecDepth 8000 in
theorem section_header_starts :
    ∀ p ∈ build_career_library, ∀ k ∈ [1, 2, 3],
      starts_with ("Option " ++ nat_str k ++ ":").data
        (describe_recommendation k (create_recommendation p)).data = true := by decide

theorem numbered_from_enum :
    ∀ (recs : List Recommendation) (i : Nat),
      i + recs.length ≤ 3 →
      (∀ r ∈ recs, r ∈ build_career_library.map create_recommendation) →
      numbered_from (i + 1) (enum_describe i recs)
  | [], i, _, _ => trivial
  | r :: rest, i, hle, hmem => by
    rw [enum_describe, numbered_from]
    constructor
    · rcases List.mem_map.mp (hmem r (List.mem_cons_self r rest)) with ⟨p, hp, rfl⟩
      have hk : i + 1 = 1 ∨ i + 1 = 2 ∨ i + 1 = 3 := by
        simp only [List.length_cons] at hle
        omega
      rcases hk with h | h | h <;> rw [h] <;>
        exact section_header_starts p hp _ (by decide)
    · have hle2 : (i + 1) + rest.length ≤ 3 := by
        simp only [List.length_cons] at hle
        omega
      exact numbered_from_enum rest (i + 1) hle2
        (fun x hx => hmem x (List.mem_cons_of_mem _ hx))

theorem catalog_trait_keys_ne_nl :
    ∀ q ∈ build_questions, ∀ o ∈ q.options, ∀ t ∈ keys o.weight,
      ∀ c ∈ (t : String).data, c ≠ '\n' := by decide

theorem catalog_titles_ne_nl :
    ∀ p ∈ build_career_library, ∀ c ∈ (p : CareerPath).title.data, c ≠ '\n' := by decide

/-- C9 (amended): for every valid response set and every learner name
free of newline characters, the rendered report contains the learner
name and the headline verbatim, and decomposes into blank-line-separated
blocks with exactly one numbered "Option N" section per recommendation,
numbered consecutively from 1, with at most 3 recommendations. -/
theorem compose_full_report_spec (learner_name : String) (rs : List (String × String))
    (hnl : ∀ c ∈ learner_name.data, c ≠ '\n')
    (hval : valid_responses rs = true) :
    ∃ ev, evaluate learner_name rs = some ev ∧
      ev.learner_name.data <:+: (compose_full_report ev).data ∧
      ev.headline.data <:+: (compose_full_report ev).data ∧
      ev.recommendations.length ≤ 3 ∧
      compose_full_report ev = join_with "\n\n"
        ([compose_intro ev, trait_line ev] ++ enum_describe 0 ev.recommendations ++
          [reflection_section ev]) ∧
      (enum_describe 0 ev.recommendations).length = ev.recommendations.length ∧
      numbered_from 1 (enum_describe 0 ev.recommendations) := by
  obtain ⟨sc, hsc⟩ := agg_go_isSome build_questions rs [] (valid_selected hval)
  have hagg : aggregate_traits rs = some sc := hsc
  have hne : sc ≠ [] :=
    agg_nonempty_of_weights build_questions rs sc (by decide) (by decide) hsc
  have hvok := validate_ok_aux hval
  have hchs : (compose_headline learner_name sc
      (((rank_paths sc).map create_recommendation).take 3)).isSome = true :=
    (compose_headline_isSome_iff _ _ _).mpr hne
  obtain ⟨hl, hhl⟩ := Option.isSome_iff_exists.mp hchs
  have hkeys := agg_go_keys build_questions rs [] sc hsc
  have htr : ∀ p ∈ sc, ∀ c ∈ (p : String × Rat).1.data, c ≠ '\n' := by
    intro p hp c hc
    have hmem : p.1 ∈ keys sc := List.mem_map_of_mem Prod.fst hp
    have h2 := (hkeys p.1).mp hmem
    rcases h2 with h2 | ⟨q, hq, o, hso, hw⟩
    · simp [keys] at h2
    · have ho : o ∈ q.options := by
        rw [selected_option] at hso
        cases halk : alookup rs q.id with
        | none => rw [halk] at hso; exact Option.noConfusion hso
        | some oid =>
          rw [halk] at hso
          simp only [Option.some_bind] at hso
          rw [option_by_id] at hso
          exact List.mem_of_find?_eq_some hso
      exact catalog_trait_keys_ne_nl q hq o ho p.1 hw c hc
  have hmemrec : ∀ r ∈ ((rank_paths sc).map create_recommendation).take 3,
      r ∈ build_career_library.map create_recommendation := by
    intro r hr
    have hr2 := List.mem_of_mem_take hr
    rcases List.mem_map.mp hr2 with ⟨p, hp, rfl⟩
    have hp2 : p ∈ build_career_library :=
      (List.perm_insertionSort
        (fun p q => match_score q sc ≤ match_score p sc) build_career_library).mem_iff.mp hp
    exact List.mem_map_of_mem _ hp2
  have hrecsnl : ∀ r ∈ ((rank_paths sc).map create_recommendation).take 3,
      ∀ c ∈ (r : Recommendation).title.data, c ≠ '\n' := by
    intro r hr
    rcases List.mem_map.mp (hmemrec r hr) with ⟨p, hp, rfl⟩
    exact catalog_titles_ne_nl p hp
  obtain ⟨hhlnl, hhlnw, hhllast⟩ :=
    compose_headline_chars learner_name sc _ hl hhl hnl htr hrecsnl
  refine ⟨{ learner_name := learner_name, headline := hl, traits := ⟨sc⟩,
            recommendations := ((rank_paths sc).map create_recommendation).take 3,
            reflection_questions :=
              reflection_prompts (((rank_paths sc).map create_recommendation).take 3) },
    ?_, ?_, ?_, ?_, rfl, enum_describe_length 0 _, ?_⟩
  · simp [evaluate, hvok, hagg, hhl]
  · have hintro := compose_intro_eval
      { learner_name := learner_name, headline := hl, traits := ⟨sc⟩,
        recommendations := ((rank_paths sc).map create_recommendation).take 3,
        reflection_questions :=
          reflection_prompts (((rank_paths sc).map create_recommendation).take 3) }
      hnl hhlnl hhlnw hhllast
    have hni : learner_name.data <:+: (compose_intro
        { learner_name := learner_name, headline := hl, traits := ⟨sc⟩,
          recommendations := ((rank_paths sc).map create_recommendation).take 3,
          reflection_questions :=
            reflection_prompts (((rank_paths sc).map create_recommendation).take 3) }).data := by
      rw [hintro]
      exact ⟨("Hey ").data,
        ((",\nHere\x27s a quick look at how your strengths and motivations can shape your next steps.\n").data) ++ hl.data,
        by simp [List.append_assoc]⟩
    have hrep : (compose_full_report
        { learner_name := learner_name, headline := hl, traits := ⟨sc⟩,
          recommendations := ((rank_paths sc).map create_recommendation).take 3,
          reflection_questions :=
            reflection_prompts (((rank_paths sc).map create_recommendation).take 3) }).data =
        (compose_intro
          { learner_name := learner_name, headline := hl, traits := ⟨sc⟩,
            recommendations := ((rank_paths sc).map create_recommendation).take 3,
            reflection_questions :=
              reflection_prompts (((rank_paths sc).map create_recommendation).take 3) }).data ++
        (("\n\n").data ++ (join_with "\n\n"
          (trait_line
            { learner_name := learner_name, headline := hl, traits := ⟨sc⟩,
              recommendations := ((rank_paths sc).map create_recommendation).take 3,
              reflection_questions :=
                reflection_prompts (((rank_paths sc).map create_recommendation).take 3) } ::
            (enum_describe 0 (((rank_paths sc).map create_recommendation).take 3) ++
              [reflection_section
                { learner_name := learner_name, headline := hl, traits := ⟨sc⟩,
                  recommendations := ((rank_paths sc).map create_recommendation).take 3,
                  reflection_questions :=
                    reflection_prompts
                      (((rank_paths sc).map create_recommendation).take 3) }]))).data) := by
      rw [compose_full_report]
      simp [String.data_append, List.append_assoc, join_with]
    rw [hrep]
    exact infix_append_right _ hni
  · have hintro := compose_intro_eval
      { learner_name := learner_name, headline := hl, traits := ⟨sc⟩,
        recommendations := ((rank_paths sc).map create_recommendation).take 3,
        reflection_questions :=
          reflection_prompts (((rank_paths sc).map create_recommendation).take 3) }
      hnl hhlnl hhlnw hhllast
    have hni : hl.data <:+: (compose_intro
        { learner_name := learner_name, headline := hl, traits := ⟨sc⟩,
          recommendations := ((rank_paths sc).map create_recommendation).take 3,
          reflection_questions :=
            reflection_prompts (((rank_paths sc).map create_recommendation).take 3) }).data := by
      rw [hintro]
      exact ⟨("Hey ").data ++ learner_name.data ++
        ((",\nHere\x27s a quick look at how your strengths and motivations can shape your next steps.\n").data),
        [], by simp [List.append_assoc]⟩
    have hrep : (compose_full_report
        { learner_name := learner_name, headline := hl, traits := ⟨sc⟩,
          recommendations := ((rank_paths sc).map create_recommendation).take 3,
          reflection_questions :=
            reflection_prompts (((rank_paths sc).map create_recommendation).take 3) }).data =
        (compose_intro
          { learner_name := learner_name, headline := hl, traits := ⟨sc⟩,
            recommendations := ((rank_paths sc).map create_recommendation).take 3,
            reflection_questions :=
              reflection_prompts (((rank_paths sc).map create_recommendation).take 3) }).data ++
        (("\n\n").data ++ (join_with "\n\n"
          (trait_line
            { learner_name := learner_name, headline := hl, traits := ⟨sc⟩,
              recommendations := ((rank_paths sc).map create_recommendation).take 3,
              reflection_questions :=
                reflection_prompts (((rank_paths sc).map create_recommendation).take 3) } ::
            (enum_describe 0 (((rank_paths sc).map create_recommendation).take 3) ++
              [reflection_section
                { learner_name := learner_name, headline := hl, traits := ⟨sc⟩,
                  recommendations := ((rank_paths sc).map create_recommendation).take 3,
                  reflection_questions :=
                    reflection_prompts
                      (((rank_paths sc).map create_recommendation).take 3) }]))).data) := by
      rw [compose_full_report]
      simp [String.data_append, List.append_assoc, join_with]
    rw [hrep]
    exact infix_append_right _ hni
  · rw [List.length_take]
    exact Nat.min_le_left _ _
  · refine numbered_from_enum _ 0 ?_ hmemrec
    rw [List.length_take]
    have hmin := Nat.min_le_left 3 ((rank_paths sc).map create_recommendation).length
    omega

/-- C9 witness: the amended report guarantee at the scenario input. -/
theorem compose_full_report_spec_witness :
    ∃ ev, evaluate "Alex" scenario_responses = some ev ∧
      ev.learner_name.data <:+: (compose_full_report ev).data ∧
      ev.headline.data <:+: (compose_full_report ev).data ∧
      ev.recommendations.length ≤ 3 ∧
      compose_full_report ev = join_with "\n\n"
        ([compose_intro ev, trait_line ev] ++ enum_describe 0 ev.recommendations ++
          [reflection_section ev]) ∧
      (enum_describe 0 ev.recommendations).length = ev.recommendations.length ∧
      numbered_from 1 (enum_describe 0 ev.recommendations) :=
  compose_full_report_spec "Alex" scenario_responses (by decide) (by decide)

set_option maxRecDepth 20000 in
/-- C9 (counterexample): a learner name containing a newline followed by
the template margin defeats `textwrap.dedent`: the rendered report
contains neither the learner name nor the headline verbatim. -/
theorem report_misses_newline_name :
    ∃ ev, evaluate margin_breaking_name scenario_responses = some ev ∧
      ¬ ev.learner_name.data <:+: (compose_full_report ev).data ∧
      ¬ ev.headline.data <:+: (compose_full_report ev).data :=
  ⟨_, rfl, not_infix_of_sub_occurs_false (by decide),
    not_infix_of_sub_occurs_false (by decide)⟩

end CareerCounselling
